import Mathlib

set_option maxRecDepth 100000

/-!
Shallow embedding of the SHAKE-128/256 sponge implementation and of the
companion Dilithium key-generation demo's placeholder hash.

Machine integers are modelled as `Nat` with explicit reduction `% 2 ^ 64`
where 64-bit overflow matters.  The C code's `uint8_t *` byte view of the
`uint64_t state[25]` array is modelled as little-endian byte
extraction/injection on the 25 lanes (flat byte index `i` lives in lane
`i / 8` at bit offset `8 * (i % 8)`), which is what the cast means on a
little-endian machine.
-/

namespace Shake

def KECCAK_ROUNDS : Nat := 24
def STATE_SIZE : Nat := 25
def SHAKE128_RATE : Nat := 168
def SHAKE256_RATE : Nat := 136

/-- Modulus of the `uint64_t` lanes, `2 ^ 64`. -/
def U64 : Nat := 2 ^ 64

/-- The rotation-offset table for the ρ step (`keccak_rotations`),
written as its five rows (row `y` holds the offsets of lanes
(0, y) … (4, y), matching the initializer's layout). -/
def keccak_rotations : List Nat :=
  [0, 1, 62, 28, 27] ++
  [36, 44, 6, 55, 20] ++
  [3, 10, 43, 25, 39] ++
  [41, 45, 15, 21, 8] ++
  [18, 2, 61, 56, 14]

/-- The round-constant table for the ι step (`keccak_round_constants`). -/
def keccak_round_constants : List Nat :=
  [0x0000000000000001, 0x0000000000008082] ++
  [0x800000000000808a, 0x8000000080008000] ++
  [0x000000000000808b, 0x0000000080000001] ++
  [0x8000000080008081, 0x8000000000008009] ++
  [0x000000000000008a, 0x0000000000000088] ++
  [0x0000000080008009, 0x000000008000000a] ++
  [0x000000008000808b, 0x800000000000008b] ++
  [0x8000000000008089, 0x8000000000008003] ++
  [0x8000000000008002, 0x8000000000000080] ++
  [0x000000000000800a, 0x800000008000000a] ++
  [0x8000000080008081, 0x8000000000008080] ++
  [0x0000000080000001, 0x8000000080008008]

/-- Left rotation `rotl64(x, n) = (x << n) | (x >> (64 - n))` on `uint64_t`.
In the C source this is evaluated for every rotation offset in the table,
including offset 0 (where `x >> 64` is an undefined shift in C; the `Nat`
model gives `x >>> 64 = 0`, matching the x86 result). -/
def rotl64 (x : Nat) (n : Nat) : Nat :=
  (((x <<< n) % U64) ||| (x >>> (64 - n)))

/-- Linear index of lane (x, y): `idx(x, y) = y * 5 + x`. -/
def idx (x y : Nat) : Nat := y * 5 + x

/-- The θ step: column parities `C`, mixing values `D`, and the XOR of
`D[x]` into every lane of column `x` (a lane at linear index `i` has
`x = i % 5`). -/
def theta (s : List Nat) : List Nat :=
  let C := (List.range 5).map (fun x =>
    s.getD (idx x 0) 0 ^^^ s.getD (idx x 1) 0 ^^^
    s.getD (idx x 2) 0 ^^^ s.getD (idx x 3) 0 ^^^
    s.getD (idx x 4) 0)
  let D := (List.range 5).map (fun x =>
    C.getD ((x + 4) % 5) 0 ^^^ rotl64 (C.getD ((x + 1) % 5) 0) 1)
  (List.range STATE_SIZE).map (fun i => s.getD i 0 ^^^ D.getD (i % 5) 0)

/-- The fused ρ+π step: for every source lane (x, y) write
`rotl64(state[idx(x,y)], keccak_rotations[idx(x,y)])` into the scratch
buffer `B` at destination `idx(y, (2x + 3y) % 5)`.  The C loops visit the
sources x-major; since π is a bijection every destination is written
exactly once, so visiting sources in linear order `i = 0, …, 24` builds
the same buffer. -/
def rhoPi (s : List Nat) : List Nat :=
  (List.range STATE_SIZE).foldl (fun B i =>
    let x := i % 5
    let y := i / 5
    B.set (idx y ((2 * x + 3 * y) % 5))
      (rotl64 (s.getD i 0) (keccak_rotations.getD i 0)))
    (List.replicate STATE_SIZE 0)

/-- The χ step: `state[x,y] = B[x,y] ^ ((~B[x+1,y]) & B[x+2,y])`, with the
`uint64_t` complement modelled as XOR with `2 ^ 64 - 1`. -/
def chi (B : List Nat) : List Nat :=
  (List.range STATE_SIZE).map (fun i =>
    let x := i % 5
    let y := i / 5
    B.getD i 0 ^^^
      ((B.getD (idx ((x + 1) % 5) y) 0 ^^^ (U64 - 1)) &&&
        B.getD (idx ((x + 2) % 5) y) 0))

/-- One round of the permutation: θ, ρ+π, χ, then ι (XOR the round
constant into lane 0). -/
def keccakRound (s : List Nat) (round : Nat) : List Nat :=
  let s1 := theta s
  let B := rhoPi s1
  let s2 := chi B
  s2.set 0 (s2.getD 0 0 ^^^ keccak_round_constants.getD round 0)

/-- Permutation `keccak_f1600`: 24 rounds of `keccakRound`. -/
def keccak_f1600 (s : List Nat) : List Nat :=
  (List.range KECCAK_ROUNDS).foldl keccakRound s

/-- The `keccak_state` struct: 25 lanes, the rate in bytes, and the
absorb/squeeze cursor.  The source has no phase field: nothing records
whether finalize has already run. -/
structure keccak_state where
  state : List Nat
  rate : Nat
  absorb_pos : Nat
deriving DecidableEq

/-- Little-endian byte read of the flat byte view: byte `i` of the state. -/
def stateByteGet (s : List Nat) (i : Nat) : Nat :=
  (s.getD (i / 8) 0 >>> (8 * (i % 8))) % 256

/-- Little-endian byte XOR into the flat byte view:
`state_bytes[i] ^= v`. -/
def stateByteXor (s : List Nat) (i v : Nat) : List Nat :=
  s.set (i / 8) (s.getD (i / 8) 0 ^^^ (v <<< (8 * (i % 8))))

/-- Initialization `shake_init`: zero the state; rate 168 for variant
128, 136 for variant 256; for any other selector the C code prints an
error message to stderr and then still falls back to `SHAKE128_RATE`,
leaving a fully initialized engine. -/
def shake_init (shake_bits : Nat) : keccak_state :=
  { state := List.replicate STATE_SIZE 0
    rate := if shake_bits == 128 then SHAKE128_RATE
            else if shake_bits == 256 then SHAKE256_RATE
            else SHAKE128_RATE
    absorb_pos := 0 }

/-- One iteration of the `shake_absorb` loop: XOR the input byte at the
cursor, advance, and permute-and-reset when the cursor reaches the rate. -/
def absorbByte (ctx : keccak_state) (b : Nat) : keccak_state :=
  let s := stateByteXor ctx.state ctx.absorb_pos b
  let pos := ctx.absorb_pos + 1
  if pos == ctx.rate then
    { ctx with state := keccak_f1600 s, absorb_pos := 0 }
  else
    { ctx with state := s, absorb_pos := pos }

/-- Absorption `shake_absorb`: absorb the input bytes one at a time. -/
def shake_absorb (ctx : keccak_state) (input : List Nat) : keccak_state :=
  input.foldl absorbByte ctx

/-- The two padding XORs of `shake_finalize`: domain-separation byte
`0x1F` at the cursor, then the terminator `0x80` at byte `rate - 1`. -/
def shake_pad (ctx : keccak_state) : List Nat :=
  stateByteXor (stateByteXor ctx.state ctx.absorb_pos 0x1F)
    (ctx.rate - 1) 0x80

/-- Finalization `shake_finalize`: apply the padding XORs, permute,
reset the cursor.  There is no phase field and no transition check in
the source: calling this a second time applies the padding and
permutation again. -/
def shake_finalize (ctx : keccak_state) : keccak_state :=
  { ctx with state := keccak_f1600 (shake_pad ctx), absorb_pos := 0 }

/-- One iteration of the `shake_squeeze` loop: permute-and-reset if the
rate is exhausted, then read the byte at the cursor and advance. -/
def squeezeStep (ctx : keccak_state) : keccak_state × Nat :=
  let c := if ctx.absorb_pos == ctx.rate then
      { ctx with state := keccak_f1600 ctx.state, absorb_pos := 0 }
    else ctx
  ({ c with absorb_pos := c.absorb_pos + 1 }, stateByteGet c.state c.absorb_pos)

/-- Squeezing `shake_squeeze`: produce `outlen` bytes, returning the
final engine state together with the output bytes. -/
def shake_squeeze (ctx : keccak_state) : Nat → keccak_state × List Nat
  | 0 => (ctx, [])
  | n + 1 =>
    let p := squeezeStep ctx
    let q := shake_squeeze p.1 n
    (q.1, p.2 :: q.2)

/-- One-shot `shake128`: init with variant 128, absorb the whole input
in one call, finalize, squeeze `outlen` bytes. -/
def shake128 (input : List Nat) (outlen : Nat) : List Nat :=
  (shake_squeeze (shake_finalize (shake_absorb (shake_init 128) input)) outlen).2

/-- One-shot `shake256` (the facade in the SHAKE file): same with
variant 256. -/
def shake256 (input : List Nat) (outlen : Nat) : List Nat :=
  (shake_squeeze (shake_finalize (shake_absorb (shake_init 256) input)) outlen).2

/-- Transition relation describing how the byte-level sponge operations
change the state: starting from `s`, a state is reachable by XOR-writes
at flat byte indices strictly below the rate `r` and by applications of
the permutation.  A state related to `s` by `Reach r` has every byte at
flat index at least `r` untouched except through `keccak_f1600`. -/
inductive Reach (r : Nat) : List Nat → List Nat → Prop
  | refl (s : List Nat) : Reach r s s
  | xorByte {s t : List Nat} (i v : Nat) (hi : i < r) (h : Reach r s t) :
      Reach r s (stateByteXor t i v)
  | perm {s t : List Nat} (h : Reach r s t) : Reach r s (keccak_f1600 t)

end Shake

namespace KeyGen

def Q : Nat := 8380417
def N : Nat := 256
def K : Nat := 4
def L : Nat := 4
def ETA : Nat := 2
def SEEDBYTES : Nat := 32

/-- Placeholder `shake256` of the key-generation demo:
`output[i] = input[i % inlen] ^ (i & 0xFF)`.  In C, `i % inlen` is a
division by zero when `inlen = 0`; the `Nat` model is total there, but
the in-bounds guard `i % inlen < inlen` fails for `inlen = 0`. -/
def shake256 (input : List Nat) (outlen : Nat) : List Nat :=
  (List.range outlen).map (fun i => input.getD (i % input.length) 0 ^^^ (i &&& 0xFF))

/-- Expanded seed built by `sample_small_poly`: 32 seed bytes followed by
the two nonce bytes `nonce & 0xFF` and `nonce >> 8`. -/
def sampleExpandedSeed (seed : List Nat) (nonce : Nat) : List Nat :=
  seed.take SEEDBYTES ++ [nonce &&& 0xFF, nonce >>> 8]

/-- Coefficient sampling `sample_small_poly`: run the placeholder hash on
the expanded seed and map each byte into `[-ETA, ETA]`. -/
def sample_small_poly (seed : List Nat) (nonce : Nat) : List Int :=
  let buf := shake256 (sampleExpandedSeed seed nonce) (N * 2)
  (List.range N).map (fun i =>
    (Int.ofNat (buf.getD i 0 % (2 * ETA + 1))) - Int.ofNat ETA)

/-- Expanded seed built by `expand_matrix_a` for entry (i, j): 32 seed
bytes followed by `i` and `j` stored into `uint8_t` slots. -/
def matrixExpandedSeed (seed : List Nat) (i j : Nat) : List Nat :=
  seed.take SEEDBYTES ++ [i % 256, j % 256]

/-- Matrix entry of `expand_matrix_a`: hash the expanded seed to
`N * 4` bytes and assemble each coefficient from three bytes, reduced
mod `Q`. -/
def expand_matrix_entry (seed : List Nat) (i j : Nat) : List Nat :=
  let poly_seed := shake256 (matrixExpandedSeed seed i j) (N * 4)
  (List.range N).map (fun k =>
    (poly_seed.getD (k * 3) 0 |||
     (poly_seed.getD (k * 3 + 1) 0 <<< 8) |||
     (poly_seed.getD (k * 3 + 2) 0 <<< 16)) % Q)

end KeyGen

namespace Shake

/-! ### Helper lemmas -/

theorem absorbByte_rate (ctx : keccak_state) (b : Nat) :
    (absorbByte ctx b).rate = ctx.rate := by
  unfold absorbByte
  by_cases hc : ctx.absorb_pos + 1 = ctx.rate
  · simp [hc]
  · simp [hc]

theorem absorbByte_pos (ctx : keccak_state) (b : Nat)
    (h : ctx.absorb_pos < ctx.rate) :
    (absorbByte ctx b).absorb_pos < (absorbByte ctx b).rate := by
  unfold absorbByte
  by_cases hc : ctx.absorb_pos + 1 = ctx.rate
  · simp [hc]; omega
  · simp [hc]; omega

theorem absorb_invariant (m : List Nat) : ∀ ctx : keccak_state,
    ctx.absorb_pos < ctx.rate →
    (shake_absorb ctx m).rate = ctx.rate ∧
    (shake_absorb ctx m).absorb_pos < (shake_absorb ctx m).rate := by
  induction m with
  | nil => intro ctx h; exact ⟨rfl, h⟩
  | cons b m ih =>
    intro ctx h
    have hstep := absorbByte_pos ctx b h
    have hr := ih (absorbByte ctx b) hstep
    refine ⟨?_, hr.2⟩
    calc (shake_absorb (absorbByte ctx b) m).rate
        = (absorbByte ctx b).rate := hr.1
      _ = ctx.rate := absorbByte_rate ctx b

theorem squeeze_take (n1 : Nat) : ∀ (n2 : Nat) (ctx : keccak_state), n1 ≤ n2 →
    ((shake_squeeze ctx n2).2).take n1 = (shake_squeeze ctx n1).2 := by
  induction n1 with
  | zero => intro n2 ctx _; simp [shake_squeeze]
  | succ k ih =>
    intro n2 ctx h
    cases n2 with
    | zero => omega
    | succ n2' =>
      simp only [shake_squeeze, List.take_succ_cons]
      rw [ih n2' (squeezeStep ctx).1 (Nat.le_of_succ_le_succ h)]

theorem reach_trans {r : Nat} {s t u : List Nat} (h1 : Reach r s t)
    (h2 : Reach r t u) : Reach r s u := by
  induction h2 with
  | refl => exact h1
  | xorByte i v hi _ ih => exact Reach.xorByte i v hi ih
  | perm _ ih => exact Reach.perm ih

theorem reach_absorbByte (ctx : keccak_state) (b : Nat)
    (h : ctx.absorb_pos < ctx.rate) :
    Reach ctx.rate ctx.state (absorbByte ctx b).state := by
  by_cases hc : ctx.absorb_pos + 1 = ctx.rate
  · have he : absorbByte ctx b =
        { ctx with state := keccak_f1600 (stateByteXor ctx.state ctx.absorb_pos b),
                   absorb_pos := 0 } := by
      unfold absorbByte; simp [hc]
    rw [he]
    exact Reach.perm (Reach.xorByte _ b h (Reach.refl _))
  · have he : absorbByte ctx b =
        { ctx with state := stateByteXor ctx.state ctx.absorb_pos b,
                   absorb_pos := ctx.absorb_pos + 1 } := by
      unfold absorbByte; simp [hc]
    rw [he]
    exact Reach.xorByte _ b h (Reach.refl _)

theorem reach_absorb (m : List Nat) : ∀ ctx : keccak_state,
    ctx.absorb_pos < ctx.rate →
    Reach ctx.rate ctx.state (shake_absorb ctx m).state := by
  induction m with
  | nil => intro ctx _; exact Reach.refl _
  | cons b m ih =>
    intro ctx h
    have hpos := absorbByte_pos ctx b h
    have hr := ih (absorbByte ctx b) hpos
    rw [absorbByte_rate ctx b] at hr
    exact reach_trans (reach_absorbByte ctx b h) hr

theorem reach_finalize (ctx : keccak_state) (h : ctx.absorb_pos < ctx.rate) :
    Reach ctx.rate ctx.state (shake_finalize ctx).state := by
  show Reach ctx.rate ctx.state (keccak_f1600 (shake_pad ctx))
  unfold shake_pad
  exact Reach.perm (Reach.xorByte _ _ (by omega) (Reach.xorByte _ _ h (Reach.refl _)))

theorem squeezeStep_state (ctx : keccak_state) :
    ((squeezeStep ctx).1).state = ctx.state ∨
    ((squeezeStep ctx).1).state = keccak_f1600 ctx.state := by
  unfold squeezeStep
  by_cases hc : ctx.absorb_pos = ctx.rate
  · right; simp [hc]
  · left; simp [hc]

theorem squeeze_state_iterate (n : Nat) : ∀ ctx : keccak_state, ∃ k : Nat,
    ((shake_squeeze ctx n).1).state = keccak_f1600^[k] ctx.state := by
  induction n with
  | zero => intro ctx; exact ⟨0, rfl⟩
  | succ m ih =>
    intro ctx
    obtain ⟨k, hk⟩ := ih (squeezeStep ctx).1
    have h1 : ((shake_squeeze ctx (m + 1)).1) = (shake_squeeze (squeezeStep ctx).1 m).1 := rfl
    rcases squeezeStep_state ctx with h | h
    · exact ⟨k, by rw [h1, hk, h]⟩
    · exact ⟨k + 1, by rw [h1, hk, h, Function.iterate_succ_apply]⟩

theorem testBit_of_lt_256 {v : Nat} (hv : v < 256) {i : Nat} (hi : 8 ≤ i) :
    v.testBit i = false := by
  apply Nat.testBit_lt_two_pow
  calc v < 256 := hv
    _ = 2 ^ 8 := by norm_num
    _ ≤ 2 ^ i := Nat.pow_le_pow_right (by norm_num) hi

theorem xor_byte_extract (a v k : Nat) (hv : v < 256) :
    ((a ^^^ (v <<< k)) >>> k) % 256 = ((a >>> k) % 256) ^^^ v := by
  apply Nat.eq_of_testBit_eq
  intro i
  have hmod : ∀ x : Nat, (x % 256).testBit i = (decide (i < 8) && x.testBit i) := by
    intro x
    have h256 : (256 : Nat) = 2 ^ 8 := by norm_num
    rw [h256]
    exact Nat.testBit_mod_two_pow x 8 i
  simp only [Nat.testBit_xor, hmod, Nat.testBit_shiftRight, Nat.testBit_shiftLeft]
  have h1 : k + i - k = i := by omega
  rw [h1]
  by_cases hi : i < 8
  · simp [hi, Nat.le_add_right]
  · have hf : v.testBit i = false := testBit_of_lt_256 hv (Nat.le_of_not_lt hi)
    simp [hi, hf]

theorem getD_set_self (s : List Nat) (j : Nat) (h : j < s.length) (x : Nat) :
    (s.set j x).getD j 0 = x := by
  rw [List.getD_eq_getElem?_getD, List.getElem?_set_self h]
  rfl

theorem byteGet_byteXor (s : List Nat) (i v : Nat) (hv : v < 256)
    (hi : i / 8 < s.length) :
    stateByteGet (stateByteXor s i v) i = stateByteGet s i ^^^ v := by
  unfold stateByteGet stateByteXor
  rw [getD_set_self s (i / 8) hi]
  exact xor_byte_extract _ v _ hv

/-! ### Claim theorems -/

/-- Claim C1: for the empty input and output length 32, `shake128`
returns the published SHAKE-128 empty-message test vector, and
`shake256` returns the published SHAKE-256 empty-message vector, under
the little-endian byte view of the 25-lane state. -/
theorem c1_empty_message_known_vectors :
    shake128 [] 32 =
      [0x7f, 0x9c, 0x2b, 0xa4, 0xe8, 0x8f, 0x82, 0x7d,
       0x61, 0x60, 0x45, 0x50, 0x76, 0x05, 0x85, 0x3e,
       0xd7, 0x3b, 0x80, 0x93, 0xf6, 0xef, 0xbc, 0x88,
       0xeb, 0x1a, 0x6e, 0xac, 0xfa, 0x66, 0xef, 0x26] ∧
    shake256 [] 32 =
      [0x46, 0xb9, 0xdd, 0x2b, 0x0b, 0xa8, 0x8d, 0x13,
       0x23, 0x3b, 0x3f, 0xeb, 0x74, 0x3e, 0xeb, 0x24,
       0x3f, 0xcd, 0x52, 0xea, 0x62, 0xb8, 0x1b, 0x82,
       0xb5, 0x0c, 0x27, 0x64, 0x6e, 0xd5, 0x76, 0x2f] := by
  constructor
  · decide
  · decide

/-- Claim C2 (code bug): the claim says `rotl64` is never evaluated with
rotation amount 0 inside `keccak_f1600`, the offset-0 lane being handled
as a no-op.  In the source the ρ+π loop applies `rotl64` to every lane,
including lane (0,0) whose table offset is 0, so the shift expression
`x >> (64 - 0)` (undefined in C) is evaluated there: lane 0 of the
scratch buffer is exactly `rotl64(state[0], keccak_rotations[0])` with
`keccak_rotations[0] = 0`, and at `n = 0` the second operand of the
right shift in `rotl64` is 64. -/
theorem c2_rho_pi_applies_rotl64_at_offset_zero :
    keccak_rotations.getD 0 0 = 0 ∧
    (∀ s : List Nat,
      (rhoPi s).getD 0 0 = rotl64 (s.getD 0 0) (keccak_rotations.getD 0 0)) ∧
    (∀ x : Nat, rotl64 x 0 = ((x <<< 0) % U64) ||| (x >>> 64)) := by
  refine ⟨rfl, fun s => ?_, fun x => rfl⟩
  unfold rhoPi
  rw [show List.range STATE_SIZE =
      [0,1,2,3,4,5,6,7,8,9,10,11,12,13,14,15,16,17,18,19,20,21,22,23,24] from rfl]
  simp [idx, keccak_rotations, List.getD_eq_getElem?_getD, List.getElem?_set_ne,
    List.getElem?_set_self, STATE_SIZE]

/-- Claim C3 (code bug): the claim says a second `finalize`, or an
`absorb` after `finalize`, fails with an InvalidTransition error and
does not silently alter the state.  The source has no phase tracking and
no error path: a second `shake_finalize` on a fresh SHAKE-128 engine
re-applies the padding XORs and the permutation, silently changing the
state and the squeezed digest, and `shake_absorb` after finalize likewise
proceeds and mutates the state. -/
theorem c3_double_finalize_silently_alters :
    shake_finalize (shake_finalize (shake_init 128)) ≠ shake_finalize (shake_init 128) ∧
    (shake_squeeze (shake_finalize (shake_finalize (shake_init 128))) 8).2 ≠
      (shake_squeeze (shake_finalize (shake_init 128)) 8).2 ∧
    shake_absorb (shake_finalize (shake_init 128)) [0x41] ≠ shake_finalize (shake_init 128) := by
  refine ⟨by decide, by decide, by decide⟩

/-- Claim C4 (code bug): the claim says an invalid variant selector is
rejected at construction with no usable engine state produced.  In the
source, `shake_init` with selector 192 prints to stderr and then still
initializes the engine with the SHAKE-128 default rate: the result is
identical to a fresh SHAKE-128 engine. -/
theorem c4_invalid_variant_defaults_to_shake128 :
    shake_init 192 = shake_init 128 ∧ (shake_init 192).rate = SHAKE128_RATE := by
  exact ⟨rfl, rfl⟩

/-- Claim C5: prefix (extendable-output) property — for every input and
output lengths `n1 ≤ n2`, the first `n1` bytes of the `n2`-byte digest
equal the `n1`-byte digest, for both variants. -/
theorem c5_prefix_property (m : List Nat) (n1 n2 : Nat) (h : n1 ≤ n2) :
    (shake128 m n2).take n1 = shake128 m n1 ∧
    (shake256 m n2).take n1 = shake256 m n1 :=
  ⟨squeeze_take n1 n2 _ h, squeeze_take n1 n2 _ h⟩

/-- Witness for C5 at `m = []`, `n1 = 2`, `n2 = 5`. -/
theorem c5_prefix_property_witness :
    (2 : Nat) ≤ 5 ∧
    ((shake128 [] 5).take 2 = shake128 [] 2 ∧
     (shake256 [] 5).take 2 = shake256 [] 2) :=
  ⟨by decide, c5_prefix_property [] 2 5 (by decide)⟩

/-- Claim C6: chunk-invariance of absorb — absorbing `m1 ++ m2` in one
call leaves the engine in exactly the same state (lanes and cursor) as
absorbing `m1` then `m2` in two calls, so the squeezed digest is
identical for both variants of the computation. -/
theorem c6_absorb_chunk_invariance (ctx : keccak_state) (m1 m2 : List Nat) (n : Nat) :
    shake_absorb ctx (m1 ++ m2) = shake_absorb (shake_absorb ctx m1) m2 ∧
    (shake_squeeze (shake_finalize (shake_absorb ctx (m1 ++ m2))) n).2 =
      (shake_squeeze (shake_finalize (shake_absorb (shake_absorb ctx m1) m2)) n).2 := by
  have h : shake_absorb ctx (m1 ++ m2) = shake_absorb (shake_absorb ctx m1) m2 := by
    simp [shake_absorb]
  exact ⟨h, by rw [h]⟩

/-- Claim C7: padding always lands in a fresh block — from any state
with cursor below the rate (as a freshly initialized engine is), any
sequence of absorbed bytes leaves the cursor strictly below the
(unchanged) rate; an input of exactly one rate-length block of zero
bytes leaves the cursor at 0; and the digest of that block differs from
the empty-input digest. -/
theorem c7_padding_fresh_block :
    (∀ (ctx : keccak_state) (m : List Nat), ctx.absorb_pos < ctx.rate →
      (shake_absorb ctx m).absorb_pos < (shake_absorb ctx m).rate ∧
      (shake_absorb ctx m).rate = ctx.rate) ∧
    (shake_absorb (shake_init 128) (List.replicate 168 0)).absorb_pos = 0 ∧
    shake128 (List.replicate 168 0) 32 ≠ shake128 [] 32 := by
  refine ⟨fun ctx m h => ⟨(absorb_invariant m ctx h).2, (absorb_invariant m ctx h).1⟩,
    by decide, by decide⟩

/-- Witness for C7's universally quantified part at a fresh SHAKE-128
engine absorbing three bytes. -/
theorem c7_padding_fresh_block_witness :
    (shake_init 128).absorb_pos < (shake_init 128).rate ∧
    ((shake_absorb (shake_init 128) [1, 2, 3]).absorb_pos <
        (shake_absorb (shake_init 128) [1, 2, 3]).rate ∧
      (shake_absorb (shake_init 128) [1, 2, 3]).rate = (shake_init 128).rate) :=
  ⟨by decide, c7_padding_fresh_block.1 (shake_init 128) [1, 2, 3] (by decide)⟩

/-- Claim C8: when finalize runs with cursor `rate - 1`, both padding
writes target the final byte of the rate region as two independent XORs:
immediately before the final permutation that byte equals the value
absorb left there XOR `0x1F` XOR `0x80`, that is, the prior byte
XOR `0x9F`. -/
theorem c8_rate_minus_one_padding (ctx : keccak_state)
    (hpos : ctx.absorb_pos + 1 = ctx.rate)
    (hlen : ctx.state.length = STATE_SIZE) (hrate : ctx.rate ≤ 200) :
    stateByteGet (shake_pad ctx) (ctx.rate - 1) =
      (stateByteGet ctx.state (ctx.rate - 1) ^^^ 0x1F) ^^^ 0x80 ∧
    (stateByteGet ctx.state (ctx.rate - 1) ^^^ 0x1F) ^^^ 0x80 =
      stateByteGet ctx.state (ctx.rate - 1) ^^^ 0x9F := by
  have hj : ctx.absorb_pos = ctx.rate - 1 := by omega
  have hl1 : (ctx.rate - 1) / 8 < ctx.state.length := by
    rw [hlen]; unfold STATE_SIZE; omega
  have hl2 : (ctx.rate - 1) / 8 < (stateByteXor ctx.state (ctx.rate - 1) 0x1F).length := by
    unfold stateByteXor
    rw [List.length_set]
    exact hl1
  constructor
  · unfold shake_pad
    rw [hj, byteGet_byteXor _ _ _ (by norm_num) hl2,
        byteGet_byteXor _ _ _ (by norm_num) hl1]
  · rw [Nat.xor_assoc]
    have h9f : (0x1F ^^^ 0x80 : Nat) = 0x9F := by decide
    rw [h9f]

/-- Witness for C8 at a SHAKE-128 engine whose cursor sits at byte 167,
the last byte of the rate region. -/
theorem c8_rate_minus_one_padding_witness :
    (167 + 1 = 168 ∧ (List.replicate 25 (0 : Nat)).length = STATE_SIZE ∧ (168 : Nat) ≤ 200) ∧
    stateByteGet (shake_pad ⟨List.replicate 25 0, 168, 167⟩) 167 =
      stateByteGet (List.replicate 25 0) 167 ^^^ 0x9F :=
  ⟨⟨by decide, by decide, by decide⟩,
   ((c8_rate_minus_one_padding ⟨List.replicate 25 0, 168, 167⟩ (by decide) (by decide)
      (by decide)).1).trans
     ((c8_rate_minus_one_padding ⟨List.replicate 25 0, 168, 167⟩ (by decide) (by decide)
      (by decide)).2)⟩

/-- Claim C9: the capacity region is never touched by the byte-level
sponge operations — the states produced by `shake_absorb` and
`shake_finalize` are reachable from the starting state using only
XOR-writes at flat byte indices strictly below the rate and applications
of `keccak_f1600`, and `shake_squeeze` changes the lanes only by some
number of applications of `keccak_f1600`. -/
theorem c9_capacity_only_permutation :
    (∀ (ctx : keccak_state) (m : List Nat), ctx.absorb_pos < ctx.rate →
      Reach ctx.rate ctx.state (shake_absorb ctx m).state) ∧
    (∀ ctx : keccak_state, ctx.absorb_pos < ctx.rate →
      Reach ctx.rate ctx.state (shake_finalize ctx).state) ∧
    (∀ (ctx : keccak_state) (n : Nat), ∃ k : Nat,
      ((shake_squeeze ctx n).1).state = keccak_f1600^[k] ctx.state) :=
  ⟨fun ctx m h => reach_absorb m ctx h,
   fun ctx h => reach_finalize ctx h,
   fun ctx n => squeeze_state_iterate n ctx⟩

/-- Witness for C9 at a fresh SHAKE-128 engine absorbing two bytes. -/
theorem c9_capacity_only_permutation_witness :
    (shake_init 128).absorb_pos < (shake_init 128).rate ∧
    Reach (shake_init 128).rate (shake_init 128).state
      (shake_absorb (shake_init 128) [1, 2]).state :=
  ⟨by decide, c9_capacity_only_permutation.1 (shake_init 128) [1, 2] (by decide)⟩

end Shake

/-- Claim C10: the key-generation demo's placeholder `shake256` is total
for non-empty input — for `0 < inlen` every read index `i % inlen` is in
bounds and the output has exactly `outlen` bytes — and both internal
callers build expanded seeds of length `SEEDBYTES + 2 = 34 > 0`,
satisfying the precondition. -/
theorem c10_keygen_placeholder_hash_totality :
    (∀ (input : List Nat) (outlen : Nat), 0 < input.length →
      (KeyGen.shake256 input outlen).length = outlen ∧
      ∀ i : Nat, i % input.length < input.length) ∧
    (∀ (seed : List Nat) (nonce : Nat), KeyGen.SEEDBYTES ≤ seed.length →
      (KeyGen.sampleExpandedSeed seed nonce).length = KeyGen.SEEDBYTES + 2 ∧
      0 < (KeyGen.sampleExpandedSeed seed nonce).length) ∧
    (∀ (seed : List Nat) (i j : Nat), KeyGen.SEEDBYTES ≤ seed.length →
      (KeyGen.matrixExpandedSeed seed i j).length = KeyGen.SEEDBYTES + 2 ∧
      0 < (KeyGen.matrixExpandedSeed seed i j).length) := by
  refine ⟨?_, ?_, ?_⟩
  · intro input outlen h
    refine ⟨by simp [KeyGen.shake256], fun i => Nat.mod_lt i h⟩
  · intro seed nonce h
    constructor
    · simp only [KeyGen.sampleExpandedSeed, List.length_append, List.length_take,
        List.length_cons, List.length_nil]
      unfold KeyGen.SEEDBYTES at h ⊢
      omega
    · simp [KeyGen.sampleExpandedSeed]
  · intro seed i j h
    constructor
    · simp only [KeyGen.matrixExpandedSeed, List.length_append, List.length_take,
        List.length_cons, List.length_nil]
      unfold KeyGen.SEEDBYTES at h ⊢
      omega
    · simp [KeyGen.matrixExpandedSeed]

/-- Witness for C10 at a two-byte input and at a 32-byte seed with
nonce 7. -/
theorem c10_keygen_placeholder_hash_totality_witness :
    (0 < ([5, 6] : List Nat).length ∧
      ((KeyGen.shake256 [5, 6] 3).length = 3 ∧
        ∀ i : Nat, i % ([5, 6] : List Nat).length < ([5, 6] : List Nat).length)) ∧
    (KeyGen.SEEDBYTES ≤ (List.replicate 32 (0 : Nat)).length ∧
      ((KeyGen.sampleExpandedSeed (List.replicate 32 0) 7).length = KeyGen.SEEDBYTES + 2 ∧
        0 < (KeyGen.sampleExpandedSeed (List.replicate 32 0) 7).length)) :=
  ⟨⟨by decide, c10_keygen_placeholder_hash_totality.1 [5, 6] 3 (by decide)⟩,
   ⟨by decide, c10_keygen_placeholder_hash_totality.2.1 (List.replicate 32 0) 7 (by decide)⟩⟩
